import Mathlib

/-!
Verification development for the photo-sharing backend's Face Identity
Resolution Pipeline.  The Python sources are shallowly embedded:

* `src/app/services/face_service.py` — `detect_faces_in_image`,
  `calculate_embedding_similarity`, `find_matching_person`;
* `src/main.py` — `process_face_detection` (the resolution job),
  `upload_images` (ingest), `process_existing_photos` (reconcile);
* `src/app/db/models.py` / `database.py` — the relational store.  The
  SQLAlchemy session is created with `autoflush=False`, so a query inside a
  job sees only rows committed so far; `db.commit()` flushes every pending
  object and commits.

Embeddings are lists of reals (idealising numpy float64 arithmetic);
serialized embeddings are an inductive that either decodes to a vector or is
malformed; fallible steps return `Except`.
-/

namespace PhotoShare

/-! ## Similarity Engine (`calculate_embedding_similarity`) -/

/-- Model of `np.dot` for 1-D arrays of the same length (zipWith-mul then sum). -/
def dotList (a b : List ℝ) : ℝ := (List.zipWith (· * ·) a b).sum

/-- Model of `np.linalg.norm`: Euclidean norm of a vector. -/
noncomputable def normList (a : List ℝ) : ℝ := Real.sqrt (dotList a a)

/-- The body of the `try:` block of `calculate_embedding_similarity`.
`np.dot` raises `ValueError` on vectors of different lengths, modelled as the
`error` branch; otherwise the zero-norm guard returns `0.0`, else the cosine
quotient. -/
noncomputable def similarity_body (e1 e2 : List ℝ) : Except Unit ℝ :=
  if e1.length = e2.length then
    Except.ok
      (if normList e1 = 0 ∨ normList e2 = 0 then 0
       else dotList e1 e2 / (normList e1 * normList e2))
  else Except.error ()

/-- Model of `calculate_embedding_similarity` (face_service.py:83-111): the `except`
handler logs and returns `0.0`. -/
noncomputable def calculate_embedding_similarity (e1 e2 : List ℝ) : ℝ :=
  match similarity_body e1 e2 with
  | .ok s => s
  | .error _ => 0

/-! ## `find_matching_person` (face_service.py:114-140) -/

/-- One iteration of the loop in `find_matching_person`: update the running
`(best_match_id, best_similarity)` pair when the candidate is strictly
better. -/
noncomputable def fmp_step (new_embedding : List ℝ)
    (best : Option ℕ × ℝ) (pe : ℕ × List ℝ) : Option ℕ × ℝ :=
  if best.2 < calculate_embedding_similarity new_embedding pe.2 then
    (some pe.1, calculate_embedding_similarity new_embedding pe.2)
  else best

/-- Model of `find_matching_person`: fold the loop body over `existing_persons`
starting from `(None, threshold)` and return the best match id. -/
noncomputable def find_matching_person (new_embedding : List ℝ)
    (existing_persons : List (ℕ × List ℝ)) (threshold : ℝ) : Option ℕ :=
  (existing_persons.foldl (fmp_step new_embedding) (none, threshold)).1

/-! ## Durable store (`app/db/models.py`) -/

/-- The serialized `faces.embedding` text column: either `json.dumps` of a
vector, or malformed text that `json.loads` rejects. -/
inductive EmbText where
  | ok (v : List ℝ)
  | bad

/-- Model of `json.loads` on a serialized embedding. -/
def json_loads : EmbText → Except Unit (List ℝ)
  | .ok v => Except.ok v
  | .bad => Except.error ()

/-- Model of `json.dumps` of an embedding vector. -/
def json_dumps (v : List ℝ) : EmbText := EmbText.ok v

/-- A face bounding box `{x, y, w, h}`. -/
structure BBox where
  x : Int
  y : Int
  w : Int
  h : Int
deriving DecidableEq

/-- A committed row of the `faces` table (the columns the pipeline uses). -/
structure FaceRow where
  photo_id : ℕ
  person_id : ℕ
  embedding : EmbText
  bbox : BBox
  confidence : ℝ

/-- The committed state of the `persons` and `faces` tables.  `persons` holds
the ids in insertion order; `nextPersonId` is the autoincrement counter. -/
structure Store where
  persons : List ℕ
  faces : List FaceRow
  nextPersonId : ℕ

/-- The query `db.query(Person.id, Face.embedding).join(Face, Person.id ==
Face.person_id)` over the committed store: every `(person_id, embedding)`
pair of every face of every person. -/
def persons_faces_join (db : Store) : List (ℕ × EmbText) :=
  db.persons.flatMap fun pid =>
    (db.faces.filter fun f => f.person_id == pid).map fun f => (pid, f.embedding)

/-- The list comprehension `[(person_id, json.loads(e)) for ...]`
(main.py:102-105): decodes left to right, raising at the first malformed
embedding. -/
def decode_persons : List (ℕ × EmbText) → Except Unit (List (ℕ × List ℝ))
  | [] => Except.ok []
  | pe :: rest =>
    match json_loads pe.2 with
    | .error e => Except.error e
    | .ok v =>
      match decode_persons rest with
      | .error e => Except.error e
      | .ok l => Except.ok ((pe.1, v) :: l)

/-- Loading the matching candidates inside the job loop (main.py:97-105). -/
def load_existing_persons (db : Store) : Except Unit (List (ℕ × List ℝ)) :=
  decode_persons (persons_faces_join db)

/-- What the spec's words describe instead: one representative per person,
the first face historically recorded (insertion order) for that person. -/
def load_representatives_spec (db : Store) : List (ℕ × EmbText) :=
  db.persons.filterMap fun pid =>
    ((db.faces.filter fun f => f.person_id == pid).head?).map fun f =>
      (pid, f.embedding)

/-! ## The resolution job (`process_face_detection`, main.py:77-139) -/

/-- One detected face handed to the job: embedding, bbox, confidence. -/
structure FaceData where
  embedding : List ℝ
  bbox : BBox
  confidence : ℝ

/-- The `faces` row the job builds for one detected face (main.py:123-129). -/
def mkRow (photo_id person_id : ℕ) (fd : FaceData) : FaceRow :=
  ⟨photo_id, person_id, json_dumps fd.embedding, fd.bbox, fd.confidence⟩

/-- A face row without its person assignment: the data that comes from the
detected face itself. -/
def rowData (f : FaceRow) : ℕ × EmbText × BBox × ℝ :=
  (f.photo_id, f.embedding, f.bbox, f.confidence)

/-- SQLAlchemy session state during one job: the committed store, the pending
(added, unflushed) face rows — the session has `autoflush=False`, so queries
do not see them — and the number of commits performed so far. -/
structure SessionState where
  db : Store
  pending : List FaceRow
  commits : ℕ

/-- Processing one face inside the job loop (main.py:91-130).  `failAt`
injects a persistence failure: the commit with that index raises
(StoreUnavailable).  An exception aborts the job; the handler rolls back the
session, so the error value is the store as committed so far.  A successful
`db.commit()` at person creation flushes the new person *and* every pending
face row. -/
noncomputable def process_one_face (failAt : Option ℕ) (photo_id : ℕ)
    (st : SessionState) (fd : FaceData) : Except Store SessionState :=
  match load_existing_persons st.db with
  | .error _ => Except.error st.db
  | .ok existing =>
    match find_matching_person fd.embedding existing 0.6 with
    | some pid =>
        Except.ok { st with pending := st.pending ++ [mkRow photo_id pid fd] }
    | none =>
        let pid := st.db.nextPersonId
        if failAt = some st.commits then Except.error st.db
        else
          Except.ok
            { db := { persons := st.db.persons ++ [pid]
                      faces := st.db.faces ++ st.pending
                      nextPersonId := pid + 1 }
              pending := [mkRow photo_id pid fd]
              commits := st.commits + 1 }

/-- The `for face_data in face_data_list:` loop, faces in detection order. -/
noncomputable def process_face_loop (failAt : Option ℕ) (photo_id : ℕ) :
    SessionState → List FaceData → Except Store SessionState
  | st, [] => Except.ok st
  | st, fd :: rest =>
    match process_one_face failAt photo_id st fd with
    | .error s => Except.error s
    | .ok st' => process_face_loop failAt photo_id st' rest

/-- Model of `process_face_detection` for a photo, given the detected faces: run the
loop, then the final `db.commit()`; on any exception the handler rolls back,
leaving exactly the commits that already succeeded. -/
noncomputable def process_face_detection (failAt : Option ℕ) (photo_id : ℕ)
    (face_data_list : List FaceData) (db : Store) : Store :=
  match process_face_loop failAt photo_id ⟨db, [], 0⟩ face_data_list with
  | .error s => s
  | .ok st =>
    if failAt = some st.commits then st.db
    else { persons := st.db.persons
           faces := st.db.faces ++ st.pending
           nextPersonId := st.db.nextPersonId }

/-! ## Embedding extraction (`detect_faces_in_image`, face_service.py:10-80) -/

/-- One element of `DeepFace.extract_faces`'s result, together with the
outcome of the `DeepFace.represent` call made for it (the external perception
library may raise). -/
structure FaceObj where
  facial_area : BBox
  confidence : ℝ
  represent : Except Unit (List (List ℝ))

/-- Outcome of the `DeepFace.extract_faces` call itself. -/
inductive ExtractOutcome where
  | failure
  | ok (face_objs : List FaceObj)

/-- The `for face_obj in face_objs:` loop inside the `try:` block: skip faces
with confidence below 0.5, skip faces whose `represent` result is empty, and
propagate any exception raised by `represent`. -/
noncomputable def detect_loop : List FaceObj → Except Unit (List FaceData)
  | [] => Except.ok []
  | fo :: rest =>
    if fo.confidence < 0.5 then detect_loop rest
    else
      match fo.represent with
      | .error e => Except.error e
      | .ok [] => detect_loop rest
      | .ok (emb :: _) =>
        match detect_loop rest with
        | .error e => Except.error e
        | .ok r => Except.ok (⟨emb, fo.facial_area, fo.confidence⟩ :: r)

/-- Model of `detect_faces_in_image`: the whole body is wrapped in `try: ... except
Exception: return []`. -/
noncomputable def detect_faces_in_image : ExtractOutcome → List FaceData
  | .failure => []
  | .ok face_objs =>
    match detect_loop face_objs with
    | .error _ => []
    | .ok r => r

/-! ## Ingestion (`upload_images`, main.py:152-252) -/

/-- Python `str.lower` over a string modelled as its character list. -/
def str_lower (s : List Char) : List Char := s.map Char.toLower

/-- Model of `is_allowed_file_type` (app/core/utils.py): the case-insensitive check
`filename.lower().endswith(('.jpg', '.jpeg', '.png'))`. -/
def is_allowed_file_type (filename : List Char) : Bool :=
  ".jpg".toList.isSuffixOf (str_lower filename) ||
    ".jpeg".toList.isSuffixOf (str_lower filename) ||
    ".png".toList.isSuffixOf (str_lower filename)

/-- Value of `config.MAX_FILE_SIZE`: 5 MB. -/
def MAX_FILE_SIZE : ℕ := 5 * 1024 * 1024

/-- A committed row of the `photos` table (the columns the claim uses). -/
structure PhotoRow where
  id : ℕ
  sha256 : String
  stored_filename : ℕ

/-- State touched by `upload_images`: photo rows, stored files (name ↦ raw
bytes), the scheduled background jobs, and the id/uuid counters (each
`uuid.uuid4()` call is modelled as a fresh counter value). -/
structure UploadState where
  photos : List PhotoRow
  files : List (ℕ × List ℕ)
  jobs : List ℕ
  nextPhotoId : ℕ
  nextFileId : ℕ

/-- Outcome of ingesting one image. -/
inductive IngestResult where
  | created
  | duplicate
  | rejected
deriving DecidableEq

/-- One uploaded image: client filename and raw bytes. -/
structure UploadImage where
  filename : List Char
  bytes : List ℕ

/-- The external collaborators of `upload_images`: `hashlib.sha256` and the
PIL-backed `validate_image_content`. -/
structure IngestEnv where
  sha256 : List ℕ → String
  validate_image_content : List ℕ → Bool

/-- The body of the `for image in images:` loop of `upload_images` for one
image: validate type and size, save the bytes under a fresh name while
hashing, validate content (removing the file on failure), then either detect
a duplicate by digest (removing the file, adding nothing, scheduling
nothing) or persist the photo row and schedule its resolution job. -/
def ingest (env : IngestEnv) (st : UploadState) (img : UploadImage) :
    UploadState × IngestResult :=
  if is_allowed_file_type img.filename = false then (st, .rejected)
  else if MAX_FILE_SIZE < img.bytes.length then (st, .rejected)
  else
    let fname := st.nextFileId
    let files1 := st.files ++ [(fname, img.bytes)]
    let digest := env.sha256 img.bytes
    if env.validate_image_content img.bytes = false then
      ({ st with files := files1.filter fun p => p.1 ≠ fname
                 nextFileId := fname + 1 }, .rejected)
    else if st.photos.any fun p => p.sha256 == digest then
      ({ st with files := files1.filter fun p => p.1 ≠ fname
                 nextFileId := fname + 1 }, .duplicate)
    else
      ({ photos := st.photos ++ [⟨st.nextPhotoId, digest, fname⟩]
         files := files1
         jobs := st.jobs ++ [st.nextPhotoId]
         nextPhotoId := st.nextPhotoId + 1
         nextFileId := fname + 1 }, .created)

/-! ## Reconciliation (`process_existing_photos`, main.py:374-398) -/

/-- A photo as seen by reconciliation: its id and whether its stored file
still exists on disk. -/
structure ReconPhoto where
  id : ℕ
  file_exists : Bool

/-- Model of `process_existing_photos`: photos with zero associated `faces` rows are
selected; a job is scheduled for each whose file exists (the rest are only
logged).  Returns the scheduled photo ids. -/
def process_existing_photos (photos : List ReconPhoto) (faces : List FaceRow) :
    List ℕ :=
  ((photos.filter fun p => faces.all fun f => f.photo_id != p.id).filter
    fun p => p.file_exists).map fun p => p.id

/-! ## Concrete fixtures used by the counterexamples and witnesses -/

/-- A zero bounding box. -/
def bb0 : BBox := ⟨0, 0, 0, 0⟩

/-- A face-data value with a one-dimensional embedding `[1]`. -/
def fdOne : FaceData := ⟨[1], bb0, 0.9⟩

/-- A store holding one person (id 1) with two committed faces whose
embeddings are `[1,0]` (recorded first) and `[0,1]`. -/
def exStoreTwoFaces : Store :=
  ⟨[1], [⟨1, 1, EmbText.ok [1, 0], bb0, 1⟩, ⟨2, 1, EmbText.ok [0, 1], bb0, 1⟩], 2⟩

/-- A store holding one person (id 1) whose only face has a malformed
serialized embedding. -/
def exStoreBad : Store := ⟨[1], [⟨9, 1, EmbText.bad, bb0, 1⟩], 2⟩

end PhotoShare

namespace PhotoShare

/-! ### Basic facts about `dotList` -/

theorem dotList_nil_left (b : List ℝ) : dotList [] b = 0 := by
  simp [dotList]

theorem dotList_nil_right (a : List ℝ) : dotList a [] = 0 := by
  simp [dotList]

theorem dotList_cons (x y : ℝ) (a b : List ℝ) :
    dotList (x :: a) (y :: b) = x * y + dotList a b := by
  simp [dotList]

theorem dotList_self_nonneg : ∀ a : List ℝ, 0 ≤ dotList a a := by
  intro a
  induction a with
  | nil => simp [dotList]
  | cons x a ih =>
      rw [dotList_cons]
      have := mul_self_nonneg x
      linarith

theorem dotList_eq_zero_of_self_eq_zero :
    ∀ a : List ℝ, dotList a a = 0 → ∀ b : List ℝ, dotList a b = 0 := by
  intro a
  induction a with
  | nil => intro _ b; simp [dotList]
  | cons x a ih =>
      intro h b
      rw [dotList_cons] at h
      have hx2 : 0 ≤ x * x := mul_self_nonneg x
      have ha : 0 ≤ dotList a a := dotList_self_nonneg a
      have hx : x * x = 0 := by linarith
      have hx0 : x = 0 := by
        have := mul_self_eq_zero.mp hx
        exact this
      have ha0 : dotList a a = 0 := by linarith
      cases b with
      | nil => simp [dotList]
      | cons y b =>
          rw [dotList_cons, hx0, ih ha0 b]
          ring

/-- Cauchy–Schwarz for `dotList`, squared form, by induction on the lists. -/
theorem dotList_sq_le :
    ∀ (a b : List ℝ), (dotList a b) ^ 2 ≤ dotList a a * dotList b b := by
  intro a
  induction a with
  | nil =>
      intro b
      simp [dotList]
  | cons x a ih =>
      intro b
      cases b with
      | nil =>
          have h := dotList_self_nonneg (x :: a)
          rw [dotList_nil_right, dotList_nil_right]
          nlinarith [h]
      | cons y b =>
          rw [dotList_cons, dotList_cons, dotList_cons]
          set S := dotList a b with hS
          set A := dotList a a with hA
          set B := dotList b b with hB
          have hIH : S ^ 2 ≤ A * B := ih b
          have hAnn : 0 ≤ A := dotList_self_nonneg a
          have hBnn : 0 ≤ B := dotList_self_nonneg b
          rcases eq_or_lt_of_le hAnn with hA0 | hApos
          · have hS0 : S = 0 := by
              have := dotList_eq_zero_of_self_eq_zero a hA0.symm b
              simpa [hS] using this
            rw [hS0, ← hA0]
            have hx2 : 0 ≤ x * x := mul_self_nonneg x
            nlinarith [mul_self_nonneg x, mul_self_nonneg y,
              mul_nonneg (mul_self_nonneg x) hBnn]
          · nlinarith [sq_nonneg (x * S - A * y), hIH, hApos,
              mul_nonneg (sq_nonneg x) (sub_nonneg.mpr hIH),
              mul_pos hApos hApos]

theorem abs_dotList_le (a b : List ℝ) :
    |dotList a b| ≤ normList a * normList b := by
  have h := dotList_sq_le a b
  have h1 : |dotList a b| = Real.sqrt ((dotList a b) ^ 2) :=
    (Real.sqrt_sq_eq_abs _).symm
  have h2 : Real.sqrt ((dotList a b) ^ 2) ≤
      Real.sqrt (dotList a a * dotList b b) := Real.sqrt_le_sqrt h
  have h3 : Real.sqrt (dotList a a * dotList b b) = normList a * normList b := by
    rw [normList, normList, Real.sqrt_mul (dotList_self_nonneg a)]
  calc |dotList a b| = Real.sqrt ((dotList a b) ^ 2) := h1
    _ ≤ Real.sqrt (dotList a a * dotList b b) := h2
    _ = normList a * normList b := h3

end PhotoShare

namespace PhotoShare

/-! ### Branch lemmas for `calculate_embedding_similarity` -/

theorem similarity_body_of_len_ne {e1 e2 : List ℝ} (h : e1.length ≠ e2.length) :
    similarity_body e1 e2 = Except.error () := by
  simp [similarity_body, h]

theorem calculate_of_len_ne {e1 e2 : List ℝ} (h : e1.length ≠ e2.length) :
    calculate_embedding_similarity e1 e2 = 0 := by
  simp [calculate_embedding_similarity, similarity_body_of_len_ne h]

theorem calculate_of_zero_norm {e1 e2 : List ℝ} (hlen : e1.length = e2.length)
    (hz : normList e1 = 0 ∨ normList e2 = 0) :
    calculate_embedding_similarity e1 e2 = 0 := by
  simp [calculate_embedding_similarity, similarity_body, hlen, hz]

theorem calculate_of_nonzero {e1 e2 : List ℝ} (hlen : e1.length = e2.length)
    (h1 : normList e1 ≠ 0) (h2 : normList e2 ≠ 0) :
    calculate_embedding_similarity e1 e2 =
      dotList e1 e2 / (normList e1 * normList e2) := by
  have hz : ¬(normList e1 = 0 ∨ normList e2 = 0) := by
    push_neg
    exact ⟨h1, h2⟩
  simp [calculate_embedding_similarity, similarity_body, hlen, hz]

theorem normList_nonneg (a : List ℝ) : 0 ≤ normList a :=
  Real.sqrt_nonneg _

theorem normList_single (c : ℝ) : normList [c] = |c| := by
  have h : dotList [c] [c] = c ^ 2 := by
    simp [dotList]
    ring
  rw [normList, h, Real.sqrt_sq_eq_abs]

/-! ### The loop of `find_matching_person`, characterised -/

theorem fmp_foldl_spec (new_embedding : List ℝ) :
    ∀ (l : List (ℕ × List ℝ)) (b : Option ℕ) (s : ℝ),
      s ≤ (l.foldl (fmp_step new_embedding) (b, s)).2 ∧
      (∀ pe ∈ l, calculate_embedding_similarity new_embedding pe.2 ≤
        (l.foldl (fmp_step new_embedding) (b, s)).2) ∧
      (l.foldl (fmp_step new_embedding) (b, s) = (b, s) ∨
        ∃ pe ∈ l, (l.foldl (fmp_step new_embedding) (b, s)).1 = some pe.1 ∧
          (l.foldl (fmp_step new_embedding) (b, s)).2 =
            calculate_embedding_similarity new_embedding pe.2 ∧
          s < (l.foldl (fmp_step new_embedding) (b, s)).2) := by
  intro l
  induction l with
  | nil =>
      intro b s
      refine ⟨le_refl s, ?_, Or.inl rfl⟩
      intro pe hpe
      exact absurd hpe (List.not_mem_nil pe)
  | cons pe rest ih =>
      intro b s
      rw [List.foldl_cons]
      by_cases h : s < calculate_embedding_similarity new_embedding pe.2
      · have hstep : fmp_step new_embedding (b, s) pe =
            (some pe.1, calculate_embedding_similarity new_embedding pe.2) := by
          simp [fmp_step, h]
        rw [hstep]
        obtain ⟨ih1, ih2, ih3⟩ :=
          ih (some pe.1) (calculate_embedding_similarity new_embedding pe.2)
        refine ⟨le_trans (le_of_lt h) ih1, ?_, ?_⟩
        · intro qe hqe
          rcases List.mem_cons.mp hqe with hqe | hqe
          · rw [hqe]
            exact ih1
          · exact ih2 qe hqe
        · rcases ih3 with heq | ⟨qe, hqe, hq1, hq2, hq3⟩
          · right
            refine ⟨pe, List.mem_cons_self pe rest, ?_, ?_, ?_⟩
            · rw [heq]
            · rw [heq]
            · rw [heq]
              exact h
          · right
            exact ⟨qe, List.mem_cons_of_mem pe hqe, hq1, hq2,
              lt_trans h hq3⟩
      · have hstep : fmp_step new_embedding (b, s) pe = (b, s) := by
          simp [fmp_step, h]
        rw [hstep]
        obtain ⟨ih1, ih2, ih3⟩ := ih b s
        refine ⟨ih1, ?_, ?_⟩
        · intro qe hqe
          rcases List.mem_cons.mp hqe with hqe | hqe
          · rw [hqe]
            exact le_trans (le_of_not_lt h) ih1
          · exact ih2 qe hqe
        · rcases ih3 with heq | hex
          · exact Or.inl heq
          · right
            obtain ⟨qe, hqe, hq⟩ := hex
            exact ⟨qe, List.mem_cons_of_mem pe hqe, hq⟩

/-- C4: matching is threshold-exclusive at 0.6.  `find_matching_person`
returns no match exactly when every candidate similarity is at most 0.6 —
and then the job creates a new Person; a returned match is a candidate whose
similarity strictly exceeds 0.6 and is maximal among all candidates. -/
theorem find_matching_person_threshold_exclusive
    (new_embedding : List ℝ) (existing_persons : List (ℕ × List ℝ)) :
    (find_matching_person new_embedding existing_persons 0.6 = none ↔
      ∀ pe ∈ existing_persons,
        calculate_embedding_similarity new_embedding pe.2 ≤ 0.6) ∧
    (∀ pid, find_matching_person new_embedding existing_persons 0.6 = some pid →
      ∃ pe ∈ existing_persons, pe.1 = pid ∧
        0.6 < calculate_embedding_similarity new_embedding pe.2 ∧
        ∀ qe ∈ existing_persons,
          calculate_embedding_similarity new_embedding qe.2 ≤
            calculate_embedding_similarity new_embedding pe.2) ∧
    (∀ (db : Store) (photo_id : ℕ) (fd : FaceData),
      load_existing_persons db = Except.ok existing_persons →
      find_matching_person fd.embedding existing_persons 0.6 = none →
      (process_face_detection none photo_id [fd] db).persons =
        db.persons ++ [db.nextPersonId]) := by
  obtain ⟨h1, h2, h3⟩ := fmp_foldl_spec new_embedding existing_persons none 0.6
  refine ⟨?_, ?_, ?_⟩
  · constructor
    · intro hnone pe hpe
      rcases h3 with heq | ⟨qe, hqe, hq1, hq2, hq3⟩
      · have : (List.foldl (fmp_step new_embedding) (none, 0.6)
            existing_persons).2 = 0.6 := by rw [heq]
        calc calculate_embedding_similarity new_embedding pe.2 ≤ _ :=
              h2 pe hpe
          _ = 0.6 := this
      · rw [find_matching_person, hq1] at hnone
        exact absurd hnone (by simp)
    · intro hall
      rcases h3 with heq | ⟨qe, hqe, hq1, hq2, hq3⟩
      · rw [find_matching_person, heq]
      · have := hall qe hqe
        rw [← hq2] at this
        exact absurd hq3 (not_lt.mpr this)
  · intro pid hsome
    rcases h3 with heq | ⟨qe, hqe, hq1, hq2, hq3⟩
    · rw [find_matching_person, heq] at hsome
      exact absurd hsome (by simp)
    · rw [find_matching_person, hq1] at hsome
      refine ⟨qe, hqe, Option.some.inj hsome, ?_, ?_⟩
      · rw [← hq2]
        exact hq3
      · intro re hre
        rw [← hq2]
        exact h2 re hre
  · intro db photo_id fd hload hfind
    have hone : process_one_face none photo_id ⟨db, [], 0⟩ fd =
        Except.ok
          { db := { persons := db.persons ++ [db.nextPersonId]
                    faces := db.faces ++ []
                    nextPersonId := db.nextPersonId + 1 }
            pending := [mkRow photo_id db.nextPersonId fd]
            commits := 1 } := by
      simp [process_one_face, hload, hfind]
    simp [process_face_detection, process_face_loop, hone]

end PhotoShare

namespace PhotoShare

theorem sim_one_one : calculate_embedding_similarity [(1:ℝ)] [(1:ℝ)] = 1 := by
  have hn : normList [(1:ℝ)] = 1 := by
    rw [normList_single]
    norm_num
  rw [calculate_of_nonzero rfl (by rw [hn]; norm_num) (by rw [hn]; norm_num), hn]
  norm_num [dotList]

/-- Witness for C4 at `new_embedding = [1]`, `existing_persons = [(1, [1])]`
(similarity `1 > 0.6`: person 1 is returned and maximal) and, for the
new-Person branch, at the empty store with no candidates. -/
theorem find_matching_person_threshold_exclusive_witness :
    (∃ pe ∈ [((1:ℕ), [(1:ℝ)])], pe.1 = 1 ∧
      0.6 < calculate_embedding_similarity [1] pe.2 ∧
      ∀ qe ∈ [((1:ℕ), [(1:ℝ)])],
        calculate_embedding_similarity [1] qe.2 ≤
          calculate_embedding_similarity [1] pe.2) ∧
    (process_face_detection none 7 [fdOne] ⟨[], [], 0⟩).persons =
      ([] : List ℕ) ++ [0] :=
  ⟨(find_matching_person_threshold_exclusive [1] [(1, [1])]).2.1 1 (by
      norm_num [find_matching_person, fmp_step, sim_one_one]),
    (find_matching_person_threshold_exclusive [1] []).2.2 ⟨[], [], 0⟩ 7 fdOne
      rfl rfl⟩

/-- C5 (amended): the similarity score lies in `[-1, 1]` (not `[0, 1]`), is
`0.0` whenever either vector has zero norm, and on same-dimension vectors of
nonzero norm is exactly the cosine quotient. -/
theorem calculate_embedding_similarity_bounds (a b : List ℝ) :
    -1 ≤ calculate_embedding_similarity a b ∧
    calculate_embedding_similarity a b ≤ 1 ∧
    ((normList a = 0 ∨ normList b = 0) →
      calculate_embedding_similarity a b = 0) ∧
    (a.length = b.length → normList a ≠ 0 → normList b ≠ 0 →
      calculate_embedding_similarity a b =
        dotList a b / (normList a * normList b)) := by
  by_cases hlen : a.length = b.length
  · by_cases hz : normList a = 0 ∨ normList b = 0
    · have h0 := calculate_of_zero_norm hlen hz
      rw [h0]
      refine ⟨by norm_num, by norm_num, fun _ => rfl, ?_⟩
      intro _ h1 h2
      rcases hz with hz | hz
      · exact absurd hz h1
      · exact absurd hz h2
    · push_neg at hz
      obtain ⟨h1, h2⟩ := hz
      have heq := calculate_of_nonzero hlen h1 h2
      have hn1 : 0 < normList a := lt_of_le_of_ne (normList_nonneg a) (Ne.symm h1)
      have hn2 : 0 < normList b := lt_of_le_of_ne (normList_nonneg b) (Ne.symm h2)
      have hpos : 0 < normList a * normList b := mul_pos hn1 hn2
      have habs : |dotList a b / (normList a * normList b)| ≤ 1 := by
        rw [abs_div, abs_of_pos hpos]
        exact (div_le_one hpos).mpr (abs_dotList_le a b)
      obtain ⟨hl, hr⟩ := abs_le.mp habs
      rw [heq]
      refine ⟨hl, hr, ?_, fun _ _ _ => rfl⟩
      intro hz'
      rcases hz' with hz' | hz'
      · exact absurd hz' h1
      · exact absurd hz' h2
  · have h0 := calculate_of_len_ne hlen
    rw [h0]
    exact ⟨by norm_num, by norm_num, fun _ => rfl, fun h => absurd h hlen⟩

/-- Witness for C5 (amended) at `a = b = [1]`: nonzero norms, so the value
is the cosine quotient. -/
theorem calculate_embedding_similarity_bounds_witness :
    calculate_embedding_similarity [(1:ℝ)] [(1:ℝ)] =
      dotList [1] [1] / (normList [1] * normList [1]) :=
  (calculate_embedding_similarity_bounds [1] [1]).2.2.2 rfl
    (by rw [normList_single]; norm_num) (by rw [normList_single]; norm_num)

/-- C5 counterexample: `similarity([1], [-1]) = -1`, which is negative —
the score is not confined to `[0, 1]`. -/
theorem calculate_embedding_similarity_negative :
    calculate_embedding_similarity [(1:ℝ)] [(-1:ℝ)] = -1 ∧
    calculate_embedding_similarity [(1:ℝ)] [(-1:ℝ)] < 0 := by
  have h1 : normList [(1:ℝ)] = 1 := by
    rw [normList_single]
    norm_num
  have h2 : normList [(-1:ℝ)] = 1 := by
    rw [normList_single]
    norm_num
  have heq := calculate_of_nonzero
    (show ([(1:ℝ)]).length = ([(-1:ℝ)]).length from rfl)
    (by rw [h1]; norm_num) (by rw [h2]; norm_num)
  rw [heq, h1, h2]
  norm_num [dotList]

/-- C9 (amended): handing the similarity computation two vectors of different
dimensionality raises inside `np.dot`, but the exception is caught by the
function's own handler, which returns `0.0` — handled silently, not surfaced
as an error. -/
theorem mismatched_dims_swallowed (e1 e2 : List ℝ)
    (h : e1.length ≠ e2.length) :
    similarity_body e1 e2 = Except.error () ∧
    calculate_embedding_similarity e1 e2 = 0 :=
  ⟨similarity_body_of_len_ne h, calculate_of_len_ne h⟩

/-- Witness for C9 (amended) at `[1]` vs `[1, 1]`. -/
theorem mismatched_dims_swallowed_witness :
    similarity_body [(1:ℝ)] [1, 1] = Except.error () ∧
    calculate_embedding_similarity [(1:ℝ)] [1, 1] = 0 :=
  mismatched_dims_swallowed [1] [1, 1] (by norm_num)

/-- C9 counterexample: with vectors `[1]` and `[1, 1]` of different
dimensionality the internal computation raises, but the exception handler
returns `0.0`, and `find_matching_person` silently treats the pair as
non-matching instead of failing loudly. -/
theorem mismatched_dims_cex :
    similarity_body [(1:ℝ)] [1, 1] = Except.error () ∧
    calculate_embedding_similarity [(1:ℝ)] [1, 1] = 0 ∧
    find_matching_person [(1:ℝ)] [(1, [1, 1])] 0.6 = none := by
  have hc : calculate_embedding_similarity [(1:ℝ)] [1, 1] = 0 :=
    calculate_of_len_ne (by norm_num)
  refine ⟨similarity_body_of_len_ne (by norm_num), hc, ?_⟩
  norm_num [find_matching_person, fmp_step, hc]

end PhotoShare

namespace PhotoShare

/-! ### Reasoning about the join and the decoding comprehension -/

theorem join_mem_of (db : Store) (f : FaceRow) (hf : f ∈ db.faces)
    (hp : f.person_id ∈ db.persons) :
    (f.person_id, f.embedding) ∈ persons_faces_join db := by
  rw [persons_faces_join]
  refine List.mem_flatMap.mpr ⟨f.person_id, hp, ?_⟩
  refine List.mem_map.mpr ⟨f, ?_, rfl⟩
  exact List.mem_filter.mpr ⟨hf, by simp⟩

theorem join_mem_embedding (db : Store) (pe : ℕ × EmbText)
    (h : pe ∈ persons_faces_join db) :
    ∃ f ∈ db.faces, f.embedding = pe.2 ∧ f.person_id = pe.1 := by
  rw [persons_faces_join] at h
  obtain ⟨pid, hpid, h2⟩ := List.mem_flatMap.mp h
  obtain ⟨f, hf, heq⟩ := List.mem_map.mp h2
  obtain ⟨hfm, hfp⟩ := List.mem_filter.mp hf
  subst heq
  simp at hfp
  exact ⟨f, hfm, rfl, hfp⟩

theorem decode_persons_ok :
    ∀ l : List (ℕ × EmbText), (∀ pe ∈ l, pe.2 ≠ EmbText.bad) →
      ∃ r, decode_persons l = Except.ok r := by
  intro l
  induction l with
  | nil => exact fun _ => ⟨[], rfl⟩
  | cons pe rest ih =>
      intro h
      obtain ⟨r, hr⟩ := ih fun qe hqe => h qe (List.mem_cons_of_mem pe hqe)
      have hpe := h pe (List.mem_cons_self pe rest)
      cases hemb : pe.2 with
      | bad => exact absurd hemb hpe
      | ok v =>
          refine ⟨(pe.1, v) :: r, ?_⟩
          simp [decode_persons, json_loads, hemb, hr]

theorem decode_persons_err :
    ∀ l : List (ℕ × EmbText), (∃ pe ∈ l, pe.2 = EmbText.bad) →
      decode_persons l = Except.error () := by
  intro l
  induction l with
  | nil =>
      rintro ⟨pe, hpe, -⟩
      exact absurd hpe (List.not_mem_nil pe)
  | cons pe rest ih =>
      rintro ⟨qe, hqe, hbad⟩
      rcases List.mem_cons.mp hqe with hqe | hqe
      · subst hqe
        simp [decode_persons, json_loads, hbad]
      · have hrec := ih ⟨qe, hqe, hbad⟩
        cases hemb : pe.2 with
        | bad => simp [decode_persons, json_loads, hemb]
        | ok v => simp [decode_persons, json_loads, hemb, hrec]

theorem decode_persons_mem :
    ∀ (l : List (ℕ × EmbText)) (r : List (ℕ × List ℝ)),
      decode_persons l = Except.ok r → ∀ pe ∈ l,
        ∃ v, json_loads pe.2 = Except.ok v ∧ (pe.1, v) ∈ r := by
  intro l
  induction l with
  | nil =>
      intro r _ pe hpe
      exact absurd hpe (List.not_mem_nil pe)
  | cons qe rest ih =>
      intro r h pe hpe
      cases hemb : qe.2 with
      | bad => simp [decode_persons, json_loads, hemb] at h
      | ok v =>
          cases hrec : decode_persons rest with
          | error e => simp [decode_persons, json_loads, hemb, hrec] at h
          | ok r' =>
              have hr : (qe.1, v) :: r' = r := by
                simpa [decode_persons, json_loads, hemb, hrec] using h
              rcases List.mem_cons.mp hpe with hpe | hpe
              · subst hpe
                refine ⟨v, by simp [json_loads, hemb], ?_⟩
                rw [← hr]
                exact List.mem_cons_self _ _
              · obtain ⟨w, hw1, hw2⟩ := ih r' hrec pe hpe
                refine ⟨w, hw1, ?_⟩
                rw [← hr]
                exact List.mem_cons_of_mem _ hw2

theorem load_existing_persons_ok (db : Store)
    (h : ∀ f ∈ db.faces, f.embedding ≠ EmbText.bad) :
    ∃ l, load_existing_persons db = Except.ok l := by
  apply decode_persons_ok
  intro pe hpe
  obtain ⟨f, hf, hfe, -⟩ := join_mem_embedding db pe hpe
  rw [← hfe]
  exact h f hf

theorem load_existing_persons_err (db : Store) (f : FaceRow)
    (hf : f ∈ db.faces) (hp : f.person_id ∈ db.persons)
    (hbad : f.embedding = EmbText.bad) :
    load_existing_persons db = Except.error () :=
  decode_persons_err _ ⟨(f.person_id, f.embedding), join_mem_of db f hf hp, hbad⟩

/-! ### Similarities of the small example vectors -/

theorem normList_01 : normList [(0:ℝ), 1] = 1 := by
  have h : dotList [(0:ℝ), 1] [0, 1] = 1 := by
    norm_num [dotList]
  rw [normList, h, Real.sqrt_one]

theorem normList_10 : normList [(1:ℝ), 0] = 1 := by
  have h : dotList [(1:ℝ), 0] [1, 0] = 1 := by
    norm_num [dotList]
  rw [normList, h, Real.sqrt_one]

theorem sim_01_10 : calculate_embedding_similarity [(0:ℝ), 1] [1, 0] = 0 := by
  rw [calculate_of_nonzero
    (show ([(0:ℝ), 1]).length = ([(1:ℝ), 0]).length from rfl)
    (by rw [normList_01]; norm_num) (by rw [normList_10]; norm_num),
    normList_01, normList_10]
  norm_num [dotList]

theorem sim_01_01 : calculate_embedding_similarity [(0:ℝ), 1] [0, 1] = 1 := by
  rw [calculate_of_nonzero
    (show ([(0:ℝ), 1]).length = ([(0:ℝ), 1]).length from rfl)
    (by rw [normList_01]; norm_num) (by rw [normList_01]; norm_num),
    normList_01]
  norm_num [dotList]

/-- C1 counterexample: in a store where person 1 has two faces, first `[1,0]`
then `[0,1]`, the job's candidate set contains *both* embeddings, and a new
face `[0,1]` is matched to person 1 through the second (non-first) face;
under the spec's one-first-face-per-person representative set the same face
would match nothing. -/
theorem representative_set_cex :
    load_existing_persons exStoreTwoFaces =
      Except.ok [(1, [1, 0]), (1, [0, 1])] ∧
    load_representatives_spec exStoreTwoFaces = [(1, EmbText.ok [1, 0])] ∧
    find_matching_person [0, 1] [(1, [1, 0]), (1, [0, 1])] 0.6 = some 1 ∧
    find_matching_person [0, 1] [(1, [1, 0])] 0.6 = none := by
  refine ⟨by rfl, by rfl, ?_, ?_⟩
  · norm_num [find_matching_person, fmp_step, sim_01_10, sim_01_01]
  · norm_num [find_matching_person, fmp_step, sim_01_10]

/-- C1 (amended): the candidate set the job loads contains every committed
face of every person — not one first-face representative per person — and any
of those faces (first recorded or not) whose similarity exceeds 0.6 suffices
to produce a match. -/
theorem all_faces_participate (db : Store) (l : List (ℕ × List ℝ))
    (new_embedding : List ℝ)
    (hload : load_existing_persons db = Except.ok l) :
    (∀ f ∈ db.faces, f.person_id ∈ db.persons →
      ∃ v, json_loads f.embedding = Except.ok v ∧ (f.person_id, v) ∈ l) ∧
    (∀ pe ∈ l, 0.6 < calculate_embedding_similarity new_embedding pe.2 →
      ∃ pid, find_matching_person new_embedding l 0.6 = some pid) := by
  constructor
  · intro f hf hp
    exact decode_persons_mem _ l hload (f.person_id, f.embedding)
      (join_mem_of db f hf hp)
  · intro pe hpe hsim
    obtain ⟨h1, h2, h3⟩ := fmp_foldl_spec new_embedding l none 0.6
    rcases h3 with heq | ⟨qe, hqe, hq1, hq2, hq3⟩
    · have hle := h2 pe hpe
      rw [heq] at hle
      exact absurd hsim (not_lt.mpr hle)
    · exact ⟨qe.1, by rw [find_matching_person, hq1]⟩

/-- Witness for C1 (amended) on the two-face store: the non-first face
`[0,1]` has similarity `1 > 0.6` with the new embedding `[0,1]` and a match
is produced. -/
theorem all_faces_participate_witness :
    ∃ pid, find_matching_person [0, 1] [(1, [1, 0]), (1, [0, 1])] 0.6 =
      some pid :=
  (all_faces_participate exStoreTwoFaces [(1, [1, 0]), (1, [0, 1])] [0, 1]
    (by rfl)).2 (1, [0, 1]) (by simp) (by rw [sim_01_01]; norm_num)

end PhotoShare

namespace PhotoShare

/-! ### Evaluation helpers for the resolution job -/

theorem load_no_faces (persons : List ℕ) (n : ℕ) :
    load_existing_persons ⟨persons, [], n⟩ = Except.ok [] := by
  have hj : persons_faces_join ⟨persons, [], n⟩ = [] := by
    simp [persons_faces_join]
  rw [load_existing_persons, hj]
  rfl

theorem find_matching_person_nil (new_embedding : List ℝ) (t : ℝ) :
    find_matching_person new_embedding [] t = none := rfl

theorem process_face_detection_nil (failAt : Option ℕ) (photo_id : ℕ)
    (db : Store) : process_face_detection failAt photo_id [] db = db := by
  cases db with
  | mk p f n =>
      rw [process_face_detection]
      simp [process_face_loop]

/-- C6 (amended): within one photo's job the faces are processed
sequentially, but a Person created for an earlier face is *not* visible as a
match candidate to the later faces of the same job: the query joins persons
with *committed* faces, the earlier face row is still pending
(`autoflush=False`), so the join returns nothing for the new person.
Starting from an empty store, a photo with two faces — whatever their
embeddings, even identical — always yields two distinct Persons, one per
face. -/
theorem same_photo_two_faces_two_persons (fd1 fd2 : FaceData) (photo_id : ℕ) :
    (process_face_detection none photo_id [fd1, fd2] ⟨[], [], 0⟩).persons =
      [0, 1] ∧
    (process_face_detection none photo_id [fd1, fd2] ⟨[], [], 0⟩).faces.map
      (fun f => (f.photo_id, f.person_id)) = [(photo_id, 0), (photo_id, 1)] := by
  have h1 : process_one_face none photo_id ⟨⟨[], [], 0⟩, [], 0⟩ fd1 =
      Except.ok ⟨⟨[0], [], 1⟩, [mkRow photo_id 0 fd1], 1⟩ := by
    simp [process_one_face, load_no_faces, find_matching_person_nil]
  have h2 : process_one_face none photo_id
      ⟨⟨[0], [], 1⟩, [mkRow photo_id 0 fd1], 1⟩ fd2 =
      Except.ok ⟨⟨[0, 1], [mkRow photo_id 0 fd1], 2⟩,
        [mkRow photo_id 1 fd2], 2⟩ := by
    simp [process_one_face, load_no_faces, find_matching_person_nil]
  constructor
  · simp [process_face_detection, process_face_loop, h1, h2]
  · simp only [process_face_detection, process_face_loop, h1, h2]
    simp [mkRow]

/-- C6 counterexample: two identical faces `[1]` (their mutual similarity is
`1 > 0.6`) in one photo, resolved from an empty store, produce **two**
Persons, with the two faces assigned to different persons — not one Person
holding both faces. -/
theorem same_photo_two_faces_cex :
    0.6 < calculate_embedding_similarity fdOne.embedding fdOne.embedding ∧
    (process_face_detection none 7 [fdOne, fdOne] ⟨[], [], 0⟩).persons =
      [0, 1] ∧
    (process_face_detection none 7 [fdOne, fdOne] ⟨[], [], 0⟩).faces.map
      (fun f => f.person_id) = [0, 1] := by
  have h1 : process_one_face none 7 ⟨⟨[], [], 0⟩, [], 0⟩ fdOne =
      Except.ok ⟨⟨[0], [], 1⟩, [mkRow 7 0 fdOne], 1⟩ := by
    simp [process_one_face, load_no_faces, find_matching_person_nil]
  have h2 : process_one_face none 7 ⟨⟨[0], [], 1⟩, [mkRow 7 0 fdOne], 1⟩ fdOne =
      Except.ok ⟨⟨[0, 1], [mkRow 7 0 fdOne], 2⟩, [mkRow 7 1 fdOne], 2⟩ := by
    simp [process_one_face, load_no_faces, find_matching_person_nil]
  refine ⟨?_, ?_, ?_⟩
  · show 0.6 < calculate_embedding_similarity [1] [1]
    rw [sim_one_one]
    norm_num
  · simp [process_face_detection, process_face_loop, h1, h2]
  · simp only [process_face_detection, process_face_loop, h1, h2]
    simp [mkRow]

/-- C2 counterexample: a single-face job on an empty store whose *final*
commit fails (`failAt = some 1`; commit 0 is the person-creation commit,
which succeeds) persists the newly created Person row and **no** Face row —
a partial write survives the aborted job, so the job is neither
all-persisted nor nothing-persisted. -/
theorem job_not_atomic_cex :
    (process_face_detection (some 1) 7 [fdOne] ⟨[], [], 0⟩).persons = [0] ∧
    (process_face_detection (some 1) 7 [fdOne] ⟨[], [], 0⟩).faces = [] := by
  have h1 : process_one_face (some 1) 7 ⟨⟨[], [], 0⟩, [], 0⟩ fdOne =
      Except.ok ⟨⟨[0], [], 1⟩, [mkRow 7 0 fdOne], 1⟩ := by
    simp [process_one_face, load_no_faces, find_matching_person_nil]
  constructor <;> simp [process_face_detection, process_face_loop, h1]

end PhotoShare

namespace PhotoShare

/-- Invariant of the job loop on a failure-free run over a store whose
committed embeddings are all well-formed: the loop succeeds and the combined
committed-plus-pending face rows grow by exactly one row per detected face,
in detection order, carrying the face's serialized embedding, bbox and
confidence. -/
theorem process_face_loop_success (photo_id : ℕ) :
    ∀ (fds : List FaceData) (st : SessionState),
      (∀ f ∈ st.db.faces, f.embedding ≠ EmbText.bad) →
      (∀ f ∈ st.pending, f.embedding ≠ EmbText.bad) →
      ∃ st', process_face_loop none photo_id st fds = Except.ok st' ∧
        (st'.db.faces ++ st'.pending).map rowData =
          (st.db.faces ++ st.pending).map rowData ++
            fds.map (fun fd =>
              (photo_id, json_dumps fd.embedding, fd.bbox, fd.confidence)) ∧
        (∀ f ∈ st'.db.faces, f.embedding ≠ EmbText.bad) ∧
        (∀ f ∈ st'.pending, f.embedding ≠ EmbText.bad) := by
  intro fds
  induction fds with
  | nil =>
      intro st h1 h2
      exact ⟨st, rfl, by simp, h1, h2⟩
  | cons fd rest ih =>
      intro st h1 h2
      obtain ⟨l, hl⟩ := load_existing_persons_ok st.db h1
      have hmk : ∀ pid, (mkRow photo_id pid fd).embedding ≠ EmbText.bad := by
        intro pid
        simp [mkRow, json_dumps]
      cases hm : find_matching_person fd.embedding l 0.6 with
      | some pid =>
          have hone : process_one_face none photo_id st fd =
              Except.ok { st with pending := st.pending ++ [mkRow photo_id pid fd] } := by
            simp [process_one_face, hl, hm]
          have hp : ∀ f ∈ st.pending ++ [mkRow photo_id pid fd],
              f.embedding ≠ EmbText.bad := by
            intro f hf
            rcases List.mem_append.mp hf with hf | hf
            · exact h2 f hf
            · rw [List.mem_singleton.mp hf]
              exact hmk pid
          obtain ⟨st', hloop, hdata, hi1, hi2⟩ :=
            ih { st with pending := st.pending ++ [mkRow photo_id pid fd] } h1 hp
          refine ⟨st', ?_, ?_, hi1, hi2⟩
          · simp [process_face_loop, hone, hloop]
          · rw [hdata]
            simp [mkRow, rowData, json_dumps]
      | none =>
          have hone : process_one_face none photo_id st fd =
              Except.ok
                { db := { persons := st.db.persons ++ [st.db.nextPersonId]
                          faces := st.db.faces ++ st.pending
                          nextPersonId := st.db.nextPersonId + 1 }
                  pending := [mkRow photo_id st.db.nextPersonId fd]
                  commits := st.commits + 1 } := by
            simp [process_one_face, hl, hm]
          have hcommitted : ∀ f ∈ st.db.faces ++ st.pending,
              f.embedding ≠ EmbText.bad := by
            intro f hf
            rcases List.mem_append.mp hf with hf | hf
            · exact h1 f hf
            · exact h2 f hf
          have hp : ∀ f ∈ [mkRow photo_id st.db.nextPersonId fd],
              f.embedding ≠ EmbText.bad := by
            intro f hf
            rw [List.mem_singleton.mp hf]
            exact hmk _
          obtain ⟨st', hloop, hdata, hi1, hi2⟩ :=
            ih { db := { persons := st.db.persons ++ [st.db.nextPersonId]
                         faces := st.db.faces ++ st.pending
                         nextPersonId := st.db.nextPersonId + 1 }
                 pending := [mkRow photo_id st.db.nextPersonId fd]
                 commits := st.commits + 1 } hcommitted hp
          refine ⟨st', ?_, ?_, hi1, hi2⟩
          · simp [process_face_loop, hone, hloop]
          · rw [hdata]
            simp [mkRow, rowData, json_dumps]

/-- C2 (amended): the job is all-or-nothing only in the absence of
persistence failures — on a failure-free run it persists exactly the
complete detected-face set (one row per face, in order, for this photo,
appended to the previously committed rows).  It is *not* atomic under
failure: person-creation commits mid-job persist immediately (see the
counterexample). -/
theorem process_complete_on_success (photo_id : ℕ) (fds : List FaceData)
    (db : Store) (h : ∀ f ∈ db.faces, f.embedding ≠ EmbText.bad) :
    (process_face_detection none photo_id fds db).faces.map rowData =
      db.faces.map rowData ++
        fds.map (fun fd =>
          (photo_id, json_dumps fd.embedding, fd.bbox, fd.confidence)) := by
  obtain ⟨st', hloop, hdata, -, -⟩ :=
    process_face_loop_success photo_id fds ⟨db, [], 0⟩ h (by simp)
  rw [process_face_detection, hloop]
  simpa using hdata

/-- Witness for C2 (amended): a one-face failure-free job on the empty store
persists exactly that face's row. -/
theorem process_complete_on_success_witness :
    (process_face_detection none 7 [fdOne] ⟨[], [], 0⟩).faces.map rowData =
      (⟨[], [], 0⟩ : Store).faces.map rowData ++
        [fdOne].map (fun fd =>
          (7, json_dumps fd.embedding, fd.bbox, fd.confidence)) :=
  process_complete_on_success 7 [fdOne] ⟨[], [], 0⟩ (by simp)

/-- C3 (amended): a malformed persisted embedding belonging to any existing
person makes the candidate-loading comprehension raise on the very first
face of any job — including a job for an unrelated photo — so that job
aborts and persists nothing at all (the store is returned unchanged); the
malformed entry is *not* skipped. -/
theorem malformed_embedding_aborts (failAt : Option ℕ) (photo_id : ℕ)
    (fd : FaceData) (fds : List FaceData) (db : Store) (f : FaceRow)
    (hf : f ∈ db.faces) (hp : f.person_id ∈ db.persons)
    (hbad : f.embedding = EmbText.bad) :
    process_face_detection failAt photo_id (fd :: fds) db = db := by
  have hload := load_existing_persons_err db f hf hp hbad
  have hone : process_one_face failAt photo_id ⟨db, [], 0⟩ fd =
      Except.error db := by
    simp [process_one_face, hload]
  simp [process_face_detection, process_face_loop, hone]

/-- Witness for C3 (amended): the store with a malformed face for person 1,
processed for the unrelated photo 2, is left unchanged. -/
theorem malformed_embedding_aborts_witness :
    process_face_detection none 2 [fdOne] exStoreBad = exStoreBad :=
  malformed_embedding_aborts none 2 fdOne [] exStoreBad
    ⟨9, 1, EmbText.bad, bb0, 1⟩ (by simp [exStoreBad]) (by simp [exStoreBad])
    rfl

/-- C3 counterexample: with person 1's only face malformed, the job for the
unrelated photo 2 with one well-formed face `[1]` does **not** complete —
nothing is persisted for photo 2 and the store is unchanged, where the claim
promised the malformed entry would be skipped and the face persisted. -/
theorem malformed_embedding_cex :
    process_face_detection none 2 [fdOne] exStoreBad = exStoreBad ∧
    (process_face_detection none 2 [fdOne] exStoreBad).faces.filter
      (fun f => f.photo_id == 2) = [] := by
  have hload : load_existing_persons exStoreBad = Except.error () := rfl
  have hone : process_one_face none 2 ⟨exStoreBad, [], 0⟩ fdOne =
      Except.error exStoreBad := by
    simp [process_one_face, hload]
  have hres : process_face_detection none 2 [fdOne] exStoreBad = exStoreBad := by
    simp [process_face_detection, process_face_loop, hone]
  refine ⟨hres, ?_⟩
  rw [hres]
  simp [exStoreBad]

end PhotoShare

namespace PhotoShare

theorem detect_loop_err :
    ∀ l : List FaceObj,
      (∃ fo ∈ l, ¬(fo.confidence < 0.5) ∧ fo.represent = Except.error ()) →
      detect_loop l = Except.error () := by
  intro l
  induction l with
  | nil =>
      rintro ⟨fo, hfo, -⟩
      exact absurd hfo (List.not_mem_nil fo)
  | cons fo rest ih =>
      rintro ⟨go, hgo, hc, hr⟩
      rcases List.mem_cons.mp hgo with hgo | hgo
      · subst hgo
        simp [detect_loop, hc, hr]
      · have hrec := ih ⟨go, hgo, hc, hr⟩
        by_cases hcf : fo.confidence < 0.5
        · simp [detect_loop, hcf, hrec]
        · cases hre : fo.represent with
          | error e => simp [detect_loop, hcf, hre]
          | ok embs =>
              cases embs with
              | nil => simp [detect_loop, hcf, hre, hrec]
              | cons emb tl => simp [detect_loop, hcf, hre, hrec]

/-- C10: face extraction is total and swallows its own failures.  When the
extraction call fails it returns the empty list; when extraction succeeds
but any retained face's embedding call raises, the whole function returns
the empty list; and the resolution job run on such an empty result commits
successfully, leaving the store exactly as a photo with genuinely zero faces
would — indistinguishable in the durable store. -/
theorem detect_failures_swallowed :
    detect_faces_in_image ExtractOutcome.failure = [] ∧
    detect_faces_in_image (ExtractOutcome.ok []) = [] ∧
    (∀ l : List FaceObj,
      (∃ fo ∈ l, ¬(fo.confidence < 0.5) ∧ fo.represent = Except.error ()) →
      detect_faces_in_image (ExtractOutcome.ok l) = []) ∧
    (∀ (failAt : Option ℕ) (photo_id : ℕ) (db : Store),
      process_face_detection failAt photo_id
        (detect_faces_in_image ExtractOutcome.failure) db = db) := by
  refine ⟨rfl, rfl, ?_, ?_⟩
  · intro l hl
    simp [detect_faces_in_image, detect_loop_err l hl]
  · intro failAt photo_id db
    exact process_face_detection_nil failAt photo_id db

/-- Witness for C10: a single face object of confidence 0.9 whose
`represent` call raises makes the extraction return the empty list. -/
theorem detect_failures_swallowed_witness :
    detect_faces_in_image
      (ExtractOutcome.ok [⟨bb0, 0.9, Except.error ()⟩]) = [] :=
  detect_failures_swallowed.2.2.1 [⟨bb0, 0.9, Except.error ()⟩]
    ⟨⟨bb0, 0.9, Except.error ()⟩, by simp, by norm_num, rfl⟩

/-- C8 counterexample: photo 1's resolution job runs to completion with zero
detected faces (the store is committed unchanged), yet a subsequent
reconcile finds the photo — it has zero Face rows — and schedules it again:
the second reconcile is not a no-op even though every photo's job has
completed. -/
theorem reconcile_not_noop_cex :
    process_face_detection none 1 [] ⟨[], [], 0⟩ = ⟨[], [], 0⟩ ∧
    process_existing_photos [⟨1, true⟩] [] = [1] := by
  exact ⟨process_face_detection_nil none 1 ⟨[], [], 0⟩, rfl⟩

/-- C8 (amended): reconcile schedules exactly the photos with zero committed
Face rows whose stored file exists; it is a no-op precisely on stores where
every photo has at least one Face row — photos whose completed jobs
persisted zero faces are rescheduled on every run. -/
theorem reconcile_schedules_exactly_faceless (photos : List ReconPhoto)
    (faces : List FaceRow) :
    (∀ pid, pid ∈ process_existing_photos photos faces ↔
      ∃ p ∈ photos, p.id = pid ∧ p.file_exists = true ∧
        ∀ f ∈ faces, f.photo_id ≠ pid) ∧
    ((∀ p ∈ photos, ∃ f ∈ faces, f.photo_id = p.id) →
      process_existing_photos photos faces = []) := by
  constructor
  · intro pid
    simp only [process_existing_photos, List.mem_map, List.mem_filter,
      List.all_eq_true, bne_iff_ne, ne_eq, decide_eq_true_eq]
    constructor
    · rintro ⟨p, ⟨⟨hp, hall⟩, hex⟩, hid⟩
      subst hid
      exact ⟨p, hp, rfl, hex, hall⟩
    · rintro ⟨p, hp, hid, hex, hall⟩
      subst hid
      exact ⟨p, ⟨⟨hp, hall⟩, hex⟩, rfl⟩
  · intro h
    have hfil : (photos.filter fun p => faces.all fun f => f.photo_id != p.id)
        = [] := by
      rw [List.filter_eq_nil_iff]
      intro p hp
      obtain ⟨f, hf, hfe⟩ := h p hp
      simp only [List.all_eq_true, bne_iff_ne, ne_eq, decide_eq_true_eq,
        not_forall]
      exact ⟨f, hf, by simp [hfe]⟩
    rw [process_existing_photos, hfil]
    rfl

/-- Witness for C8 (amended): one photo, one face row for it — reconcile
schedules nothing. -/
theorem reconcile_schedules_exactly_faceless_witness :
    process_existing_photos [⟨1, true⟩] [⟨1, 0, EmbText.ok [], bb0, 1⟩] = [] :=
  (reconcile_schedules_exactly_faceless [⟨1, true⟩]
    [⟨1, 0, EmbText.ok [], bb0, 1⟩]).2 (by
      intro p hp
      rw [List.mem_singleton.mp hp]
      exact ⟨⟨1, 0, EmbText.ok [], bb0, 1⟩, by simp, rfl⟩)

end PhotoShare

namespace PhotoShare

/-- C7: ingesting the same raw bytes twice in sequence — with validations
passing and no photo with that digest already stored — returns `created`
then `duplicate`; the second call creates no photo row, schedules no
resolution job, and retains no bytes (the saved file is removed, leaving the
file store unchanged); exactly one photo row with that digest is persisted
after either call. -/
theorem ingest_twice_dedup (env : IngestEnv) (st : UploadState)
    (img : UploadImage)
    (htype : is_allowed_file_type img.filename = true)
    (hsize : ¬ MAX_FILE_SIZE < img.bytes.length)
    (hcontent : env.validate_image_content img.bytes = true)
    (hnodup : ∀ p ∈ st.photos, p.sha256 ≠ env.sha256 img.bytes)
    (hfresh : ∀ f ∈ st.files, f.1 < st.nextFileId) :
    (ingest env st img).2 = IngestResult.created ∧
    (ingest env (ingest env st img).1 img).2 = IngestResult.duplicate ∧
    (ingest env (ingest env st img).1 img).1.photos =
      (ingest env st img).1.photos ∧
    (ingest env (ingest env st img).1 img).1.jobs =
      (ingest env st img).1.jobs ∧
    (ingest env (ingest env st img).1 img).1.files =
      (ingest env st img).1.files ∧
    ((ingest env st img).1.photos.filter
      (fun p => p.sha256 == env.sha256 img.bytes)).length = 1 ∧
    ((ingest env (ingest env st img).1 img).1.photos.filter
      (fun p => p.sha256 == env.sha256 img.bytes)).length = 1 := by
  have hany1 : (st.photos.any fun p => p.sha256 == env.sha256 img.bytes)
      = false := by
    rw [List.any_eq_false]
    intro p hp
    simp [hnodup p hp]
  have h1 : ingest env st img =
      ({ photos := st.photos ++ [⟨st.nextPhotoId, env.sha256 img.bytes,
            st.nextFileId⟩]
         files := st.files ++ [(st.nextFileId, img.bytes)]
         jobs := st.jobs ++ [st.nextPhotoId]
         nextPhotoId := st.nextPhotoId + 1
         nextFileId := st.nextFileId + 1 }, IngestResult.created) := by
    simp [ingest, htype, hsize, hcontent, hany1]
  have hany2 : ((st.photos ++ [⟨st.nextPhotoId, env.sha256 img.bytes,
      st.nextFileId⟩] : List PhotoRow).any
        fun p => p.sha256 == env.sha256 img.bytes) = true := by
    simp
  have h2 : ingest env
      ({ photos := st.photos ++ [⟨st.nextPhotoId, env.sha256 img.bytes,
            st.nextFileId⟩]
         files := st.files ++ [(st.nextFileId, img.bytes)]
         jobs := st.jobs ++ [st.nextPhotoId]
         nextPhotoId := st.nextPhotoId + 1
         nextFileId := st.nextFileId + 1 } : UploadState) img =
      ({ photos := st.photos ++ [⟨st.nextPhotoId, env.sha256 img.bytes,
            st.nextFileId⟩]
         files := st.files ++ [(st.nextFileId, img.bytes)]
         jobs := st.jobs ++ [st.nextPhotoId]
         nextPhotoId := st.nextPhotoId + 1
         nextFileId := st.nextFileId + 2 }, IngestResult.duplicate) := by
    simp only [ingest, htype, hsize, hcontent, hany2]
    simp
    intro a b hab
    have hlt := hfresh (a, b) hab
    simp at hlt
    omega
  have hlen : ((st.photos ++ [⟨st.nextPhotoId, env.sha256 img.bytes,
      st.nextFileId⟩] : List PhotoRow).filter
        (fun p => p.sha256 == env.sha256 img.bytes)).length = 1 := by
    rw [List.filter_append]
    have hnone : (st.photos.filter
        fun p => p.sha256 == env.sha256 img.bytes) = [] := by
      rw [List.filter_eq_nil_iff]
      intro p hp
      simp [hnodup p hp]
    rw [hnone]
    simp
  rw [h1]
  simp [h2, hlen]
  intro a ha
  exact hnodup a ha

/-- Witness for C7: a fresh store, constant digest function, always-valid
content check, and a small JPG upload. -/
theorem ingest_twice_dedup_witness :
    (ingest ⟨fun _ => "h", fun _ => true⟩ ⟨[], [], [], 0, 0⟩
      ⟨"a.jpg".toList, [1]⟩).2 = IngestResult.created ∧
    (ingest ⟨fun _ => "h", fun _ => true⟩
      (ingest ⟨fun _ => "h", fun _ => true⟩ ⟨[], [], [], 0, 0⟩
        ⟨"a.jpg".toList, [1]⟩).1 ⟨"a.jpg".toList, [1]⟩).2 =
      IngestResult.duplicate := by
  have h := ingest_twice_dedup ⟨fun _ => "h", fun _ => true⟩ ⟨[], [], [], 0, 0⟩
    ⟨"a.jpg".toList, [1]⟩ (by decide) (by decide) rfl (by simp) (by simp)
  exact ⟨h.1, h.2.1⟩

end PhotoShare
